import Mathlib

/-!
Verification of the goftp FTP client library core against its
natural-language specification.

The development shallowly embeds the relevant Go functions of the
repository.  Strings are modelled as lists of characters (`Str`); Go's
machine integers are modelled as `Int` (they stay far below the 64-bit
range in everything proved here); fallible functions return `Option` or
`Except`; the connection pool is modelled as an explicit state machine
driven sequentially by lists of pool operations, matching the source's
`getIdleConn` / `returnConn` / `removeConn` in `unnamed/part_003`.

All byte/character positions computed by the embedded helpers are
character positions; the Go originals work on byte indexes, which agree
on the ASCII data the protocol carries.
-/

set_option linter.unusedVariables false

namespace Goftp

/-- Strings as lists of characters. -/
abbrev Str := List Char

/-- Coerce a Lean string literal to the `Str` model. -/
def str (s : String) : Str := s.data

/-- Embedding of Go `strings.Split(s, sep)` for a one-character separator:
the result always has one more element than the number of separator
occurrences, so `splitOnChar sep []` is `[[]]` just as Go's
`strings.Split("", sep)` is `[""]`. -/
def splitOnChar (sep : Char) : Str → List Str
  | [] => [[]]
  | c :: rest =>
    match splitOnChar sep rest with
    | [] => [[]]
    | h :: t => if c = sep then [] :: h :: t else (c :: h) :: t

/-- Embedding of Go `strings.HasPrefix(s, pre)` (argument order: string,
then prefix to test). -/
def startsWith : Str → Str → Bool
  | _, [] => true
  | [], _ :: _ => false
  | c :: cs, p :: ps => c = p && startsWith cs ps

/-- Embedding of Go `strings.Index(s, t)` for a one-character `t`:
`none` models Go's `-1`. -/
def indexOfChar (c : Char) : Str → Option Nat
  | [] => none
  | x :: xs => if x = c then some 0 else (indexOfChar c xs).map (· + 1)

/-- Embedding of Go `strings.LastIndex(s, t)` for a one-character `t`:
`none` models Go's `-1`. -/
def lastIndexOfChar (c : Char) : Str → Option Nat
  | [] => none
  | x :: xs =>
    match lastIndexOfChar c xs with
    | some i => some (i + 1)
    | none => if x = c then some 0 else none

/-- Embedding of Go `strings.Index(s, needle)` for a general needle. -/
def indexOfStr (needle : Str) : Str → Option Nat
  | [] => if needle.isEmpty then some 0 else none
  | c :: rest =>
    if startsWith (c :: rest) needle then some 0
    else (indexOfStr needle rest).map (· + 1)

/-- Embedding of Go `strings.Split(s, sep)` for a non-empty multi-character
separator, implemented with an explicit fuel argument (the input length
bounds the number of fragments). -/
def splitOnStrFuel (sep : Str) : Nat → Str → List Str
  | 0, l => [l]
  | fuel + 1, l =>
    match indexOfStr sep l with
    | none => [l]
    | some i => l.take i :: splitOnStrFuel sep fuel (l.drop (i + sep.length))

/-- Embedding of Go `strings.Split(s, sep)` for a non-empty separator. -/
def splitOnStr (sep : Str) (l : Str) : List Str :=
  splitOnStrFuel sep (l.length + 1) l

/-- Embedding of Go `strings.SplitN(s, sep, 2)` for a one-character
separator. -/
def splitN2 (sep : Char) (l : Str) : List Str :=
  match indexOfChar sep l with
  | none => [l]
  | some i => [l.take i, l.drop (i + 1)]

/-- Decision of an ASCII decimal digit. -/
def isDigitCh (c : Char) : Bool :=
  decide (48 ≤ c.toNat) && decide (c.toNat ≤ 57)

/-- The ASCII character of a decimal digit (`digitCh 3 = '3'`). -/
def digitCh (n : Nat) : Char :=
  match n with
  | 0 => '0' | 1 => '1' | 2 => '2' | 3 => '3' | 4 => '4'
  | 5 => '5' | 6 => '6' | 7 => '7' | 8 => '8' | _ => '9'

/-- Canonical decimal digits of a natural number, most significant first,
as produced by Go's `%d` formatting of a non-negative value. -/
def natDigits (n : Nat) : Str :=
  if h : n < 10 then [digitCh n]
  else natDigits (n / 10) ++ [digitCh (n % 10)]
decreasing_by exact Nat.div_lt_self (by omega) (by norm_num)

/-- Decimal value of a digit string (left fold, as Go's `strconv` does). -/
def digitsVal (l : Str) : Nat :=
  l.foldl (fun a c => a * 10 + (c.toNat - 48)) 0

/-- Parse of a non-empty all-digit string. -/
def parseDec (l : Str) : Option Nat :=
  if l.isEmpty = false ∧ l.all isDigitCh = true then some (digitsVal l) else none

/-- Embedding of Go `strconv.Atoi`: an optional sign followed by decimal
digits (64-bit overflow is not modelled; every value appearing in this
development is tiny). -/
def goAtoi (l : Str) : Option Int :=
  match l with
  | '-' :: rest => (parseDec rest).map (fun n => -(n : Int))
  | '+' :: rest => (parseDec rest).map (fun n => (n : Int))
  | _ => (parseDec l).map (fun n => (n : Int))

/-- Go `%d` rendering of an `Int`. -/
def goIntRepr (i : Int) : Str :=
  if i < 0 then '-' :: natDigits i.natAbs else natDigits i.natAbs

/-- ASCII upper-casing of one character, as Go `strings.ToUpper` acts on
the ASCII feature names this library handles. -/
def toUpperCh (c : Char) : Char :=
  if 97 ≤ c.toNat ∧ c.toNat ≤ 122 then Char.ofNat (c.toNat - 32) else c

/-- ASCII lower-casing of one character, as Go `strings.ToLower` acts on
the ASCII fact names/values this library handles. -/
def toLowerCh (c : Char) : Char :=
  if 65 ≤ c.toNat ∧ c.toNat ≤ 90 then Char.ofNat (c.toNat + 32) else c

/-- Embedding of Go `strings.ToUpper` restricted to ASCII. -/
def toUpperStr (l : Str) : Str := l.map toUpperCh

/-- Embedding of Go `strings.ToLower` restricted to ASCII. -/
def toLowerStr (l : Str) : Str := l.map toLowerCh

/-- ASCII white-space test (Go `unicode.IsSpace` on the ASCII range). -/
def isSpaceCh (c : Char) : Bool :=
  decide (c = ' ') || decide (c = '\t') || decide (c = '\n') ||
  decide (c = '\x0b') || decide (c = '\x0c') || decide (c = '\r')

/-- Embedding of Go `strings.TrimSpace` restricted to ASCII white space. -/
def trimSpace (l : Str) : Str :=
  ((l.dropWhile isSpaceCh).reverse.dropWhile isSpaceCh).reverse

/-! ### Reply classification (`replycodes.go`) -/

/-- Embedding of `positiveCompletionReply` from `replycodes.go`: the reply
code's group is 2xx. -/
def positiveCompletionReply (code : Int) : Bool := decide (code / 100 = 2)

/-! ### Passive mode (`requestPassive`, `unnamed/part_000` lines 203-281) -/

/-- Four octets of a parsed IPv4 address (the result of Go `net.ParseIP`
on a dotted quad). -/
structure IPv4 where
  a : Nat
  b : Nat
  c : Nat
  d : Nat
deriving DecidableEq, Repr

/-- One dotted-decimal field as Go `net.ParseIP` accepts it: decimal
digits with value at most 255. -/
def ipField (l : Str) : Option Nat :=
  if l.isEmpty = false ∧ l.all isDigitCh = true ∧ digitsVal l ≤ 255 then
    some (digitsVal l)
  else none

/-- Embedding of Go `net.ParseIP` restricted to IPv4 dotted-quad form,
which is the only form the PASV branch can feed it. -/
def parseIPv4 (l : Str) : Option IPv4 :=
  match splitOnChar '.' l with
  | [p0, p1, p2, p3] =>
    match ipField p0, ipField p1, ipField p2, ipField p3 with
    | some a, some b, some c, some d => some ⟨a, b, c, d⟩
    | _, _, _, _ => none
  | _ => none

/-- Go `ip.String()` for an IPv4 value: canonical dotted decimal. -/
def ipRepr (ip : IPv4) : Str :=
  natDigits ip.a ++ '.' :: natDigits ip.b ++ '.' :: natDigits ip.c ++ '.' :: natDigits ip.d

/-- Parse of the `(h1,h2,h3,h4,p1,p2)` payload exactly as the PASV branch
of `requestPassive` does it: first `(`, last `)`, split the slice between
them on `,`, require six parts, `net.ParseIP` the first four joined with
`.`, and fold the port as `port |= octet << (8*(1-i))` (the shift is
modelled as multiplication, exact at these magnitudes; `|=` is `Int.lor`). -/
def pasvParseAddr (msg : Str) : Option (IPv4 × Int) :=
  match indexOfChar '(' msg, lastIndexOfChar ')' msg with
  | some startIdx, some endIdx =>
    if startIdx > endIdx then none
    else
      match splitOnChar ',' ((msg.take endIdx).drop (startIdx + 1)) with
      | [h1, h2, h3, h4, p1, p2] =>
        match parseIPv4 (h1 ++ '.' :: h2 ++ '.' :: h3 ++ '.' :: h4) with
        | none => none
        | some ip =>
          match goAtoi p1, goAtoi p2 with
          | some v1, some v2 => some (ip, Int.lor (Int.lor 0 (v1 * 256)) v2)
          | _, _ => none
      | _ => none
  | _, _ => none

/-- Go `fmt.Sprintf("%s:%d", ip.String(), port)`, the endpoint the PASV
branch returns. -/
def pasvEndpoint (ip : IPv4) (port : Int) : Str :=
  ipRepr ip ++ ':' :: goIntRepr port

/-- Errors `requestPassive` can surface (I/O errors on the control socket
are outside this model; both constructors carry the payload of the
`ftpError` value built at the corresponding source line). -/
inductive PassiveErr where
  | unexpectedReply (code : Int) (msg : Str)
  | parseFailure (msg : Str)
deriving DecidableEq, Repr

/-- Port extraction of the EPSV branch: text between the first `|||` and
the last `|`, fed to `strconv.Atoi`. -/
def epsvParsePort (msg : Str) : Option Int :=
  match indexOfStr (str "|||") msg, lastIndexOfChar '|' msg with
  | some startIdx, some endIdx =>
    if startIdx + 3 > endIdx then none
    else goAtoi ((msg.take endIdx).drop (startIdx + 3))
  | _, _ => none

/-- The PASV fall-back branch of `requestPassive` (label `PASV` in
`unnamed/part_000`).  `msg` is the string the branch parses; in the
source this variable still holds the EPSV reply text, because
`sendCommandExpected` does not return the PASV reply's message.
`pasvCode`/`pasvMsg` are the PASV reply, checked against 227 by
`sendCommandExpected`. -/
def requestPassiveFallback (msg : Str) (pasvCode : Int) (pasvMsg : Str) :
    Except PassiveErr Str :=
  if pasvCode = 227 then
    match pasvParseAddr msg with
    | some (ip, port) => .ok (pasvEndpoint ip port)
    | none => .error (.parseFailure msg)
  else .error (.unexpectedReply pasvCode pasvMsg)

/-- Embedding of `requestPassive` (`unnamed/part_000` lines 203-281).
Inputs are the EPSV reply, the control socket's remote host, and the PASV
reply that would be received if the fall-back runs.  Note that the
fall-back is passed `epsvMsg`: the source never reassigns `msg` after the
`PASV` label. -/
def requestPassive (epsvCode : Int) (epsvMsg remoteHost : Str)
    (pasvCode : Int) (pasvMsg : Str) : Except PassiveErr Str :=
  if epsvCode ≠ 229 then requestPassiveFallback epsvMsg pasvCode pasvMsg
  else
    match epsvParsePort epsvMsg with
    | none => requestPassiveFallback epsvMsg pasvCode pasvMsg
    | some port => .ok ('[' :: remoteHost ++ ']' :: ':' :: goIntRepr port)

/-! ### FEAT parsing (`fetchFeatures`, `unnamed/part_000` lines 140-163) -/

/-- Go map insertion on an association list: replace the value when the
key is present, append otherwise. -/
def assocPut : List (Str × Str) → Str → Str → List (Str × Str)
  | [], k, v => [(k, v)]
  | (k0, v0) :: rest, k, v =>
    if k0 = k then (k0, v) :: rest else (k0, v0) :: assocPut rest k v

/-- Processing of one line of the FEAT reply body.  The source reads
`line[0]`, which panics with an index-out-of-range runtime error when the
line is empty; `none` models that panic. -/
def featLineStep (m : List (Str × Str)) (line : Str) : Option (List (Str × Str)) :=
  match line with
  | [] => none
  | c :: _ =>
    if c = ' ' then
      match splitN2 ' ' (trimSpace line) with
      | [p0] => some (assocPut m (toUpperStr p0) [])
      | [p0, p1] => some (assocPut m (toUpperStr p0) p1)
      | _ => some m
    else some m

/-- The feature-map population loop of `fetchFeatures`: fold
`featLineStep` over the `\n`-split reply text.  `none` models a panic. -/
def featuresFromMsg (msg : Str) : Option (List (Str × Str)) :=
  (splitOnChar '\n' msg).foldlM featLineStep []

/-- Embedding of `fetchFeatures` after the FEAT command returned reply
`(code, msg)`: a non-2xx reply leaves the feature map empty, otherwise
the reply body is parsed.  `none` models a panic. -/
def fetchFeatures (code : Int) (msg : Str) : Option (List (Str × Str)) :=
  if positiveCompletionReply code = false then some []
  else featuresFromMsg msg

/-- Embedding of `hasFeature`: map membership. -/
def hasFeature (features : List (Str × Str)) (name : Str) : Bool :=
  (features.find? (fun p => decide (p.1 = name))).isSome

/-- Embedding of `hasFeatureWithArg`: the feature is present and its
stored argument equals the upper-cased query argument. -/
def hasFeatureWithArg (features : List (Str × Str)) (name arg : Str) : Bool :=
  match features.find? (fun p => decide (p.1 = name)) with
  | some p => decide (toUpperStr arg = p.2)
  | none => false

/-! ### Debug logging and password redaction (`sendCommand`,
`unnamed/part_000` lines 82-112) -/

/-- The `logName` computation of `sendCommand`: a command beginning with
`PASS` is replaced by the fixed redacted text. -/
def redactLogName (cmd : Str) : Str :=
  if startsWith cmd (str "PASS") then str "PASS ******" else cmd

/-- One line written by `debug`: `goftp: %.3f #%d %s\n`.  The elapsed-time
rendering is an opaque string parameter. -/
def debugLine (elapsed : Str) (idx : Nat) (m : Str) : Str :=
  str "goftp: " ++ elapsed ++ ' ' :: '#' :: natDigits idx ++ ' ' :: m ++ [ '\n' ]

/-- The debug lines emitted by one `sendCommand` call, in order.
`elapsed1`/`elapsed2` are the rendered timestamps of the two `debug`
calls, `writeErr` a failure of `PrintfLine`, and `reply` either the read
reply or the `readResponse` error text (whose own debug line is included,
since it is emitted during the `sendCommand` call). -/
def sendCommandLog (elapsed1 elapsed2 : Str) (idx : Nat) (cmd : Str)
    (writeErr : Option Str) (reply : Except Str (Int × Str)) : List Str :=
  let logName := redactLogName cmd
  match writeErr with
  | some e =>
    [debugLine elapsed1 idx (str "sending command " ++ logName),
     debugLine elapsed2 idx
       (str "error sending command \x22" ++ logName ++ str "\x22: " ++ e)]
  | none =>
    match reply with
    | .error e =>
      [debugLine elapsed1 idx (str "sending command " ++ logName),
       debugLine elapsed2 idx (str "error reading response: " ++ e)]
    | .ok (code, msg) =>
      [debugLine elapsed1 idx (str "sending command " ++ logName),
       debugLine elapsed2 idx
         (str "sent command " ++ logName ++ str ", got " ++ goIntRepr code ++
          '-' :: msg)]

/-! ### Path base names (`filepath.Base` on Unix, used by `NameList` and
`parseMLST` in `traverse.go`) -/

/-- The characters after the last `/`, or the whole string when it has
no `/`. -/
def afterLastSlash (l : Str) : Str :=
  (l.reverse.takeWhile (fun c => decide (c ≠ '/'))).reverse

/-- Embedding of Go `path/filepath.Base` on Unix: empty path gives `.`,
trailing separators are stripped, the last element is returned, and a
path of only separators gives `/`. -/
def filepathBase (path : Str) : Str :=
  if path.isEmpty then ['.']
  else
    let p1 := (path.reverse.dropWhile (fun c => decide (c = '/'))).reverse
    let p2 := afterLastSlash p1
    if p2.isEmpty then ['/'] else p2

/-- The post-processing loop of `NameList` (`traverse.go` lines 70-81):
`filepath.Base` applied to every line received on the NLST data
connection. -/
def nameListNames (lines : List Str) : List Str :=
  lines.map filepathBase

/-! ### Connection pool (`unnamed/part_003` lines 133-195)

The pool is modelled as a sequential state machine.  A `PoolConn` is a
connection object: its `idx` and its `broken` flag (the only fields the
pool logic reads).  The state carries the idle channel (`freeConnCh`, a
FIFO list), the loaned connections (implicit in Go: the objects currently
held by callers), the `allCons` key set, the `numOpenConns` counter and
the `connIdx` generator.  `maxConns` is the `config.MaxConnections`
snapshot. -/

/-- A pool connection: its stable index and broken flag. -/
structure PoolConn where
  idx : Nat
  broken : Bool
deriving DecidableEq, Repr

/-- The pool's state. -/
structure PoolState where
  maxConns : Nat
  freeConnCh : List PoolConn
  loaned : List PoolConn
  allCons : List Nat
  numOpenConns : Int
  connIdx : Nat
deriving DecidableEq, Repr

/-- The connections currently open: idle ones then loaned ones. -/
def liveConns (s : PoolState) : List PoolConn :=
  s.freeConnCh ++ s.loaned

/-- A fresh pool with capacity `maxConns` and no connections. -/
def initPool (maxConns : Nat) : PoolState :=
  { maxConns := maxConns, freeConnCh := [], loaned := [], allCons := [],
    numOpenConns := 0, connIdx := 0 }

/-- The result of `getIdleConn`: a connection, a connect error, or a
block on the empty channel (which, driven sequentially, cannot be
fulfilled). -/
inductive AcquireResult where
  | got (c : PoolConn)
  | failed
  | blocked
deriving DecidableEq, Repr

/-- The body of `getIdleConn` (`unnamed/part_003` lines 133-184), with the
remaining channel contents as the first argument.  Draining: a broken
connection received from the channel is dropped (`numOpenConns` is
decremented and `removeConn` deletes it from `allCons` and closes it),
a good one is returned.  On an empty channel: below capacity the counter
and `connIdx` are bumped and `openConn` runs (`openOk` says whether it
succeeds; on failure the counter is released); at capacity the caller
blocks. -/
def acquireDrain (openOk : Bool) : List PoolConn → PoolState →
    AcquireResult × PoolState
  | pconn :: rest, s =>
    if pconn.broken then
      acquireDrain openOk rest
        { s with numOpenConns := s.numOpenConns - 1,
                 allCons := s.allCons.erase pconn.idx }
    else
      (.got pconn, { s with freeConnCh := rest, loaned := pconn :: s.loaned })
  | [], s =>
    if s.numOpenConns < (s.maxConns : Int) then
      if openOk then
        (.got { idx := s.connIdx + 1, broken := false },
         { s with numOpenConns := s.numOpenConns + 1, connIdx := s.connIdx + 1,
                  freeConnCh := [],
                  allCons := s.allCons ++ [s.connIdx + 1],
                  loaned := { idx := s.connIdx + 1, broken := false } :: s.loaned })
      else
        (.failed, { s with numOpenConns := s.numOpenConns + 1 - 1,
                           connIdx := s.connIdx + 1, freeConnCh := [] })
    else
      (.blocked, { s with freeConnCh := [] })

/-- Embedding of `getIdleConn`, driven sequentially. -/
def getIdleConn (openOk : Bool) (s : PoolState) : AcquireResult × PoolState :=
  acquireDrain openOk s.freeConnCh s

/-- Removal of the first loaned connection with the given index,
returning it. -/
def takeByIdx : List PoolConn → Nat → Option PoolConn × List PoolConn
  | [], _ => (none, [])
  | c :: rest, i =>
    if c.idx = i then (some c, rest)
    else
      let r := takeByIdx rest i
      (r.1, c :: r.2)

/-- Embedding of `returnConn` (`unnamed/part_003` lines 193-195) as driven
by a caller holding loaned connection `i`: the connection object — whose
`broken` flag the caller may have set to true meanwhile (`markBroken`) —
is pushed onto the idle channel.  A `release` of an index that is not
loaned is a no-op (no caller can perform it). -/
def returnConn (i : Nat) (markBroken : Bool) (s : PoolState) : PoolState :=
  match takeByIdx s.loaned i with
  | (none, _) => s
  | (some c, rest) =>
    { s with loaned := rest,
             freeConnCh := s.freeConnCh ++ [{ idx := c.idx, broken := c.broken || markBroken }] }

/-- One pool operation issued by a caller. -/
inductive PoolOp where
  | acquire (openOk : Bool)
  | release (i : Nat) (markBroken : Bool)
deriving DecidableEq, Repr

/-- Effect of one pool operation on the state. -/
def poolStep (s : PoolState) : PoolOp → PoolState
  | .acquire openOk => (getIdleConn openOk s).2
  | .release i b => returnConn i b s

/-- The pool state after a sequence of operations on a fresh pool of
capacity `maxConns`. -/
def runPool (maxConns : Nat) (ops : List PoolOp) : PoolState :=
  ops.foldl poolStep (initPool maxConns)

/-- Effect of `Client.Delete` (`file_system.go` lines 7-14) on the pool:
the connection is acquired with `getIdleConn` and the command is sent,
but no code path calls `returnConn`, so the pool state after the call is
exactly the post-acquire state.  `Rename`, `Mkdir` and `Rmdir` have the
same shape. -/
def clientDelete (s : PoolState) : PoolState :=
  (getIdleConn true s).2

/-- Effect on the pool of an operation that acquires a connection and
releases it on the way out (`defer c.returnConn(pconn)`), as
`transferFromOffset`, `size`, `canResume`, `dataStringList` and
`controlStringList` all do.  `cmdBreaks` tells whether the command marked
the connection broken. -/
def pooledOp (cmdBreaks : Bool) (s : PoolState) : PoolState :=
  match getIdleConn true s with
  | (.got c, s2) => returnConn c.idx cmdBreaks s2
  | (_, s2) => s2

/-- The pool accounting invariant of the claim: the counter equals the
number of live connections, no connection is both idle and loaned (or
loaned twice), the live count respects the capacity, and every live
index was generated by `connIdx`. -/
def poolInv (s : PoolState) : Prop :=
  s.numOpenConns = ((liveConns s).length : Int) ∧
  ((liveConns s).map PoolConn.idx).Nodup ∧
  (liveConns s).length ≤ s.maxConns ∧
  ∀ c ∈ liveConns s, c.idx ≤ s.connIdx

/-! ### Transfer engine (`Retrieve`/`Store`, `file_system.go` lines 60-232) -/

/-- The observable outcome of one `transferFromOffset` call: the byte
count it returned and its error, if any (errors are modelled by their
rendered message). -/
structure Attempt where
  n : Int
  err : Option Str
deriving DecidableEq, Repr

/-- How the retry loop of `Retrieve`/`Store` ends.  `outOfAttempts` means
the scripted attempt list ran out while the loop would have continued. -/
inductive TransferExit where
  | success (total : Int)
  | failure (e : Str)
  | outOfAttempts
deriving DecidableEq, Repr

/-- Result of a whole client call. -/
inductive OpOutcome where
  | ok
  | err (e : Str)
  | incomplete
deriving DecidableEq, Repr

/-- Embedding of `canResume` (`file_system.go` lines 268-277), given the
feature map of the connection the pool handed out. -/
def canResume (features : List (Str × Str)) : Bool :=
  hasFeatureWithArg features (str "REST") (str "STREAM")

/-- The retry loop of `Retrieve` (`file_system.go` lines 74-87), with the
attempts' outcomes scripted by a list.  The second component records the
offset passed to each `transferFromOffset` call made.  Each iteration
adds the attempt's byte count to `bytesSoFar`; a `nil` error exits with
success; an error with zero bytes surfaces that error unchanged; an error
with non-zero bytes fails with a wrapped message unless `can` (the
`canResume` snapshot) allows another iteration. -/
def retrieveLoop : List Attempt → Int → Bool → TransferExit × List Int
  | [], _, _ => (.outOfAttempts, [])
  | a :: rest, bytesSoFar, can =>
    let newSoFar := bytesSoFar + a.n
    match a.err with
    | none => (.success newSoFar, [bytesSoFar])
    | some e =>
      if a.n = 0 then (.failure e, [bytesSoFar])
      else if can = false then
        (.failure (e ++ str " (can't resume)"), [bytesSoFar])
      else
        let r := retrieveLoop rest newSoFar can
        (r.1, bytesSoFar :: r.2)

/-- The size-mismatch error message of `Retrieve` (`file_system.go`
line 90). -/
def retrieveMismatchMsg (size total : Int) : Str :=
  str "expected " ++ goIntRepr size ++ str " bytes, got " ++ goIntRepr total

/-- Embedding of `Retrieve` (`file_system.go` lines 65-94): `sizeRes` is
the result of the `c.size(path)` call made before the loop, `can` the
`canResume` snapshot, `attempts` the scripted transfer outcomes.  After a
successful loop the transferred total is checked against the reported
size unless that is the `-1` sentinel. -/
def clientRetrieve (sizeRes : Except Str Int) (can : Bool)
    (attempts : List Attempt) : OpOutcome :=
  match sizeRes with
  | .error e => .err e
  | .ok size =>
    match (retrieveLoop attempts 0 can).1 with
    | .outOfAttempts => .incomplete
    | .failure e => .err e
    | .success total =>
      if size ≠ -1 ∧ total ≠ size then .err (retrieveMismatchMsg size total)
      else .ok

/-- Instruction produced by the resume preamble of one `Store` loop
iteration. -/
inductive ResumeStep where
  | fail (e : Str)
  | exhausted
  | proceed (sizes : List (Except Str Int)) (seeks : List Bool) (bytesSoFar : Int)

/-- The resume preamble of `Store`'s loop (`file_system.go` lines
118-137): when bytes have been transferred already, query `SIZE`; an
error propagates, a `-1` sentinel aborts the resume, then the source is
sought to the reported size, which becomes the new `bytesSoFar`.  The
`sizes` and `seeks` lists script the outcomes of those calls. -/
def storeResume (sizes : List (Except Str Int)) (seeks : List Bool)
    (bytesSoFar : Int) : ResumeStep :=
  if bytesSoFar > 0 then
    match sizes with
    | [] => .exhausted
    | (.error e) :: _ => .fail e
    | (.ok sz) :: sizes2 =>
      if sz = -1 then .fail (str "(resume failed)")
      else
        match seeks with
        | [] => .exhausted
        | false :: _ => .fail (str "(resume failed)")
        | true :: seeks2 => .proceed sizes2 seeks2 sz
  else .proceed sizes seeks bytesSoFar

/-- The retry loop of `Store` (`file_system.go` lines 117-150): as
`retrieveLoop`, but each iteration after the first successful bytes runs
the resume preamble, which rebases `bytesSoFar` on the server-reported
size. -/
def storeLoop : List Attempt → List (Except Str Int) → List Bool → Int →
    Bool → TransferExit
  | [], _, _, _, _ => .outOfAttempts
  | a :: rest, sizes, seeks, bytesSoFar, can =>
    match storeResume sizes seeks bytesSoFar with
    | .fail e => .failure e
    | .exhausted => .outOfAttempts
    | .proceed sizes2 seeks2 sofar2 =>
      let newSoFar := sofar2 + a.n
      match a.err with
      | none => .success newSoFar
      | some e =>
        if a.n = 0 then .failure e
        else if can = false then .failure (e ++ str " (can't resume)")
        else storeLoop rest sizes2 seeks2 newSoFar can

/-- The size-mismatch error message of `Store` (`file_system.go`
line 158). -/
def storeMismatchMsg (total size : Int) : Str :=
  str "sent " ++ goIntRepr total ++ str " bytes, but size is " ++ goIntRepr size

/-- Embedding of `Store` (`file_system.go` lines 103-162): after a
successful loop, `sizeAfter` (the result of the final `c.size(path)`
call) is checked against the transferred total unless it is the `-1`
sentinel. -/
def clientStore (attempts : List Attempt) (sizes : List (Except Str Int))
    (seeks : List Bool) (can : Bool) (sizeAfter : Except Str Int) : OpOutcome :=
  match storeLoop attempts sizes seeks 0 can with
  | .outOfAttempts => .incomplete
  | .failure e => .err e
  | .success total =>
    match sizeAfter with
    | .error e => .err e
    | .ok size =>
      if size ≠ -1 ∧ size ≠ total then .err (storeMismatchMsg total size)
      else .ok

/-- Sum of the byte counts of a list of attempts. -/
def attemptBytes (l : List Attempt) : Int :=
  (l.map Attempt.n).sum

/-! ### MLST/MLSD entry parsing (`parseMLST`, `traverse.go` lines 200-289) -/

/-- The two error values `parseMLST` builds. -/
inductive MlstErr where
  | parseFailure
  | incomplete
deriving DecidableEq, Repr

/-- Calendar day/month/year timestamp parsed from an MLST `modify` fact
(Go `time.Time` restricted to what the `20060102150405` layout yields in
UTC). -/
structure GoTime where
  year : Nat
  month : Nat
  day : Nat
  hour : Nat
  minute : Nat
  second : Nat
deriving DecidableEq, Repr

/-- A directory entry (the `ftpFile` struct of `traverse.go`). -/
structure FtpFile where
  name : Str
  size : Int
  mode : Int
  mtime : GoTime
  raw : Str
deriving DecidableEq, Repr

/-- The fact map of an MLST entry: the first `; `-separated half split on
`;`, each pair split on `=` into exactly a key and a value, both
lower-cased; any other shape is the parse error. -/
def mlstFacts (l : Str) : Option (List (Str × Str)) :=
  (splitOnChar ';' l).foldlM (fun m factPair =>
    match splitOnChar '=' factPair with
    | [k, v] => some (assocPut m (toLowerStr k) (toLowerStr v))
    | _ => none) []

/-- Go map read with the zero value as default. -/
def factGet (m : List (Str × Str)) (k : Str) : Str :=
  match m.find? (fun p => decide (p.1 = k)) with
  | some p => p.2
  | none => []

/-- Decision of an octal digit. -/
def isOctCh (c : Char) : Bool :=
  decide (48 ≤ c.toNat) && decide (c.toNat ≤ 55)

/-- Octal value of an octal digit string. -/
def octVal (l : Str) : Nat :=
  l.foldl (fun a c => a * 8 + (c.toNat - 48)) 0

/-- Embedding of Go `strconv.ParseInt(s, 8, 32)`: optional sign and
non-empty octal digits. -/
def parseOct (l : Str) : Option Int :=
  match l with
  | '-' :: rest =>
    if rest.isEmpty = false ∧ rest.all isOctCh = true then some (-(octVal rest : Int)) else none
  | '+' :: rest =>
    if rest.isEmpty = false ∧ rest.all isOctCh = true then some ((octVal rest : Int)) else none
  | _ =>
    if l.isEmpty = false ∧ l.all isOctCh = true then some ((octVal l : Int)) else none

/-- The permission bits derived from one RFC 3659 `perm` letter
(`traverse.go` lines 237-249): write-suggesting letters give `0200`,
`l` gives `0500`, `r` gives `0400`. -/
def permCharBits (c : Char) : Int :=
  if c = 'a' ∨ c = 'd' ∨ c = 'c' ∨ c = 'f' ∨ c = 'm' ∨ c = 'p' ∨ c = 'w' then 128
  else if c = 'l' then 320
  else if c = 'r' then 256
  else 0

/-- The fold over the `perm` fact letters. -/
def permModeBits (perm : Str) : Int :=
  perm.foldl (fun mode c => Int.lor mode (permCharBits c)) 0

/-- Go `os.ModeDir` (bit 31 of `FileMode`). -/
def goModeDir : Int := 2147483648

/-- Go `FileMode.IsDir`. -/
def modeIsDir (mode : Int) : Bool := decide (Int.land mode goModeDir ≠ 0)

/-- The mode computation of `parseMLST` before the directory bit: a
non-empty `unix.mode` fact is parsed as octal (failure is the parse
error), else a non-empty `perm` fact is folded, else the entry is
incomplete. -/
def mlstModeBase (facts : List (Str × Str)) : Except MlstErr Int :=
  if factGet facts (str "unix.mode") ≠ [] then
    match parseOct (factGet facts (str "unix.mode")) with
    | some m => .ok m
    | none => .error .parseFailure
  else if factGet facts (str "perm") ≠ [] then
    .ok (permModeBits (factGet facts (str "perm")))
  else .error .incomplete

/-- The size computation of `parseMLST`.  Note the source never checks
the `strconv.ParseInt` error here (the `err` variable is overwritten by
the `modify` parse below before anyone reads it), and Go's `ParseInt`
returns value `0` alongside a syntax error, so an unparseable `size`
fact silently yields size `0`: hence `getD 0`. -/
def mlstSize (facts : List (Str × Str)) (mode : Int) : Except MlstErr Int :=
  if factGet facts (str "size") ≠ [] then
    .ok ((goAtoi (factGet facts (str "size"))).getD 0)
  else if modeIsDir mode = true ∧ factGet facts (str "sizd") ≠ [] then
    .ok ((goAtoi (factGet facts (str "sizd"))).getD 0)
  else if factGet facts (str "type") = str "file" then .error .incomplete
  else .ok 0

/-- Days of a month in the proleptic Gregorian calendar, as Go's time
package validates a parsed day-of-month. -/
def daysInMonth (year month : Nat) : Nat :=
  if month = 2 then
    if year % 4 = 0 ∧ (year % 100 ≠ 0 ∨ year % 400 = 0) then 29 else 28
  else if month = 4 ∨ month = 6 ∨ month = 9 ∨ month = 11 then 30
  else 31

/-- Embedding of Go `time.ParseInLocation("20060102150405", s, time.UTC)`:
fourteen digits, with every calendar field in range. -/
def parseMlstTime (l : Str) : Option GoTime :=
  match l with
  | [y1, y2, y3, y4, mo1, mo2, d1, d2, h1, h2, mi1, mi2, s1, s2] =>
    if l.all isDigitCh = true then
      let year := digitsVal [y1, y2, y3, y4]
      let month := digitsVal [mo1, mo2]
      let day := digitsVal [d1, d2]
      let hour := digitsVal [h1, h2]
      let minute := digitsVal [mi1, mi2]
      let second := digitsVal [s1, s2]
      if 1 ≤ month ∧ month ≤ 12 ∧ 1 ≤ day ∧ day ≤ daysInMonth year month ∧
         hour ≤ 23 ∧ minute ≤ 59 ∧ second ≤ 59 then
        some ⟨year, month, day, hour, minute, second⟩
      else none
    else none
  | _ => none

/-- Embedding of `parseMLST` (`traverse.go` lines 200-289).  `.ok none`
is the `nil, nil` return that makes `ReadDir` skip the entry; `.error`
carries which of the two error values was built. -/
def parseMLST (entry : Str) (skipSelfParent : Bool) : Except MlstErr (Option FtpFile) :=
  match splitOnStr (str "; ") entry with
  | [p0, p1] =>
    match mlstFacts p0 with
    | none => .error .parseFailure
    | some facts =>
      let typ := factGet facts (str "type")
      if typ = [] then .error .incomplete
      else if skipSelfParent = true ∧
          (typ = str "cdir" ∨ typ = str "pdir" ∨ typ = str "." ∨ typ = str "..") then
        .ok none
      else
        match mlstModeBase facts with
        | .error e => .error e
        | .ok modeBase =>
          let mode := if typ = str "dir" ∨ typ = str "cdir" ∨ typ = str "pdir"
            then Int.lor modeBase goModeDir else modeBase
          match mlstSize facts mode with
          | .error e => .error e
          | .ok size =>
            if factGet facts (str "modify") = [] then .error .incomplete
            else
              match parseMlstTime (factGet facts (str "modify")) with
              | none => .error .incomplete
              | some t =>
                .ok (some { name := filepathBase p1, size := size, mode := mode,
                            mtime := t, raw := entry })
  | _ => .error .parseFailure

/-- The entry loop of `ReadDir` (`traverse.go` lines 33-46): parse each
MLSD data line with `skipSelfParent`, drop the `nil` results, propagate
the first error. -/
def readDirEntries (entries : List Str) : Except MlstErr (List FtpFile) :=
  entries.foldlM (fun acc e =>
    (parseMLST e true).map (fun r =>
      match r with
      | none => acc
      | some f => acc ++ [f])) []

/-- The `type` fact a given MLSD line carries, through the same splitting
pipeline as `parseMLST` (empty when the line does not reach the fact
stage). -/
def mlstTypeFact (entry : Str) : Str :=
  match splitOnStr (str "; ") entry with
  | [p0, _] =>
    match mlstFacts p0 with
    | some facts => factGet facts (str "type")
    | none => []
  | _ => []

/-- The `(h1,h2,h3,h4,p1,p2)` payload body formatted from six field
values, the spec's formatting direction of the PASV round-trip. -/
def pasvBody (h1 h2 h3 h4 p1 p2 : Nat) : Str :=
  natDigits h1 ++ ',' :: (natDigits h2 ++ ',' :: (natDigits h3 ++ ',' ::
  (natDigits h4 ++ ',' :: (natDigits p1 ++ ',' :: natDigits p2))))

/-! ## Helper lemmas -/

theorem startsWith_self_append (p l : Str) : startsWith (p ++ l) p = true := by
  induction p with
  | nil => cases l <;> rfl
  | cons c cs ih => simp [startsWith, ih]

theorem digitCh_toNat (k : Nat) (h : k < 10) : (digitCh k).toNat = 48 + k := by
  interval_cases k <;> rfl

theorem isDigitCh_digitCh (k : Nat) (h : k < 10) : isDigitCh (digitCh k) = true := by
  interval_cases k <;> rfl

theorem natDigits_all_digits (n : Nat) : (natDigits n).all isDigitCh = true := by
  induction n using Nat.strong_induction_on with
  | _ n ih =>
    rw [natDigits]
    split
    · simp [isDigitCh_digitCh n (by omega)]
    · rename_i h
      have hlt : n / 10 < n := Nat.div_lt_self (by omega) (by norm_num)
      simp [List.all_append, ih _ hlt, isDigitCh_digitCh (n % 10) (by omega)]

theorem natDigits_ne_nil (n : Nat) : natDigits n ≠ [] := by
  rw [natDigits]
  split
  · simp
  · simp

theorem not_mem_natDigits (c : Char) (n : Nat) (hc : isDigitCh c = false) :
    c ∉ natDigits n := by
  intro hmem
  have h := natDigits_all_digits n
  rw [List.all_eq_true] at h
  have := h c hmem
  rw [hc] at this
  exact Bool.noConfusion this

theorem digitsVal_append_digit (l : Str) (c : Char) :
    digitsVal (l ++ [c]) = digitsVal l * 10 + (c.toNat - 48) := by
  simp [digitsVal, List.foldl_append]

theorem digitsVal_natDigits (n : Nat) : digitsVal (natDigits n) = n := by
  induction n using Nat.strong_induction_on with
  | _ n ih =>
    rw [natDigits]
    split
    · rename_i h
      simp [digitsVal, digitCh_toNat n h]
    · rename_i h
      have hlt : n / 10 < n := Nat.div_lt_self (by omega) (by norm_num)
      rw [digitsVal_append_digit, ih _ hlt, digitCh_toNat (n % 10) (by omega)]
      omega

theorem splitOnChar_ne_nil (sep : Char) (l : Str) : splitOnChar sep l ≠ [] := by
  cases l with
  | nil => simp [splitOnChar]
  | cons c rest =>
    rw [splitOnChar]
    match h : splitOnChar sep rest with
    | [] => simp
    | h0 :: t => by_cases hc : c = sep <;> simp [hc]

theorem splitOnChar_not_mem (sep : Char) (l : Str) (h : sep ∉ l) :
    splitOnChar sep l = [l] := by
  induction l with
  | nil => rfl
  | cons c rest ih =>
    rw [splitOnChar]
    have hc : c ≠ sep := fun he => h (he ▸ List.mem_cons_self c rest)
    have hr : sep ∉ rest := fun hm => h (List.mem_cons_of_mem c hm)
    rw [ih hr]
    simp [hc]

theorem splitOnChar_append (sep : Char) (l1 l2 : Str) (h : sep ∉ l1) :
    splitOnChar sep (l1 ++ sep :: l2) = l1 :: splitOnChar sep l2 := by
  induction l1 with
  | nil =>
    simp only [List.nil_append]
    rw [splitOnChar]
    match hs : splitOnChar sep l2 with
    | [] => exact absurd hs (splitOnChar_ne_nil sep l2)
    | h0 :: t => simp
  | cons c rest ih =>
    have hc : c ≠ sep := fun he => h (he ▸ List.mem_cons_self c rest)
    have hr : sep ∉ rest := fun hm => h (List.mem_cons_of_mem c hm)
    simp only [List.cons_append]
    rw [splitOnChar, ih hr]
    simp [hc]

theorem indexOfChar_not_mem (c : Char) (l : Str) (h : c ∉ l) :
    indexOfChar c l = none := by
  induction l with
  | nil => rfl
  | cons x rest ih =>
    have hx : x ≠ c := fun he => h (he ▸ List.mem_cons_self x rest)
    have hr : c ∉ rest := fun hm => h (List.mem_cons_of_mem x hm)
    simp [indexOfChar, hx, ih hr]

theorem indexOfChar_append_first (c : Char) (l1 l2 : Str) (h : c ∉ l1) :
    indexOfChar c (l1 ++ c :: l2) = some l1.length := by
  induction l1 with
  | nil => simp [indexOfChar]
  | cons x rest ih =>
    have hx : x ≠ c := fun he => h (he ▸ List.mem_cons_self x rest)
    have hr : c ∉ rest := fun hm => h (List.mem_cons_of_mem x hm)
    simp [indexOfChar, hx, ih hr]

theorem lastIndexOfChar_not_mem (c : Char) (l : Str) (h : c ∉ l) :
    lastIndexOfChar c l = none := by
  induction l with
  | nil => rfl
  | cons x rest ih =>
    have hx : x ≠ c := fun he => h (he ▸ List.mem_cons_self x rest)
    have hr : c ∉ rest := fun hm => h (List.mem_cons_of_mem x hm)
    rw [lastIndexOfChar, ih hr]
    simp [hx]

theorem lastIndexOfChar_append_last (c : Char) (l1 l2 : Str) (h : c ∉ l2) :
    lastIndexOfChar c (l1 ++ c :: l2) = some l1.length := by
  induction l1 with
  | nil =>
    simp only [List.nil_append]
    rw [lastIndexOfChar, lastIndexOfChar_not_mem c l2 h]
    simp
  | cons x rest ih =>
    simp only [List.cons_append]
    rw [lastIndexOfChar, ih]
    simp

theorem isEmpty_false_of_ne_nil {l : Str} (h : l ≠ []) : l.isEmpty = false := by
  cases l with
  | nil => exact absurd rfl h
  | cons c cs => simp [List.isEmpty]

theorem ipField_natDigits (n : Nat) (h : n ≤ 255) : ipField (natDigits n) = some n := by
  rw [ipField]
  rw [if_pos ⟨isEmpty_false_of_ne_nil (natDigits_ne_nil n),
      natDigits_all_digits n, by rw [digitsVal_natDigits]; exact h⟩]
  rw [digitsVal_natDigits]

theorem natDigits_head_digit (n : Nat) :
    ∃ c cs, natDigits n = c :: cs ∧ isDigitCh c = true := by
  match hd : natDigits n with
  | [] => exact absurd hd (natDigits_ne_nil n)
  | c :: cs =>
    refine ⟨c, cs, rfl, ?_⟩
    have h := natDigits_all_digits n
    rw [hd, List.all_cons] at h
    exact (Bool.and_eq_true_iff.mp h).1

theorem parseDec_natDigits (n : Nat) : parseDec (natDigits n) = some n := by
  rw [parseDec,
    if_pos ⟨isEmpty_false_of_ne_nil (natDigits_ne_nil n), natDigits_all_digits n⟩,
    digitsVal_natDigits]

theorem goAtoi_natDigits (n : Nat) : goAtoi (natDigits n) = some (n : Int) := by
  obtain ⟨c, cs, hcons, hdig⟩ := natDigits_head_digit n
  have hminus : c ≠ '-' := by
    intro he
    rw [he] at hdig
    exact Bool.noConfusion hdig
  have hplus : c ≠ '+' := by
    intro he
    rw [he] at hdig
    exact Bool.noConfusion hdig
  rw [hcons, goAtoi]
  · rw [← hcons, parseDec_natDigits]
    rfl
  · intro rest heq
    injection heq with hh _
    exact hminus hh
  · intro rest heq
    injection heq with hh _
    exact hplus hh

theorem parseIPv4_quad (a b c d : Nat) (ha : a ≤ 255) (hb : b ≤ 255)
    (hc : c ≤ 255) (hd : d ≤ 255) :
    parseIPv4 (natDigits a ++ '.' :: (natDigits b ++ '.' :: (natDigits c ++
      '.' :: natDigits d))) = some ⟨a, b, c, d⟩ := by
  have hdot : isDigitCh '.' = false := by decide
  rw [parseIPv4]
  rw [splitOnChar_append '.' _ _ (not_mem_natDigits _ _ hdot),
      splitOnChar_append '.' _ _ (not_mem_natDigits _ _ hdot),
      splitOnChar_append '.' _ _ (not_mem_natDigits _ _ hdot),
      splitOnChar_not_mem '.' _ (not_mem_natDigits _ _ hdot)]
  dsimp only
  rw [ipField_natDigits a ha, ipField_natDigits b hb,
      ipField_natDigits c hc, ipField_natDigits d hd]

theorem nat_lor_mul256 (a b : Nat) (hb : b < 256) : (a * 256) ||| b = a * 256 + b := by
  apply Nat.eq_of_testBit_eq
  intro i
  rw [Nat.testBit_lor]
  rcases Nat.lt_or_ge i 8 with hi | hi
  · have h8 : ¬ (8 ≤ i) := by omega
    have hlow : (a * 256).testBit i = false := by
      have hsh : a * 256 = a <<< 8 := by rw [Nat.shiftLeft_eq]
      rw [hsh, Nat.testBit_shiftLeft]
      simp [h8]
    have hrw : a * 256 + b = b + 2 * (a * 2 ^ (7 - i)) * 2 ^ i := by
      have h1 : (7 - i) + 1 + i = 8 := by omega
      calc a * 256 + b = b + a * 2 ^ ((7 - i) + 1 + i) := by rw [h1]; ring
        _ = b + 2 * (a * 2 ^ (7 - i)) * 2 ^ i := by ring
    have hmid : (b + 2 * (a * 2 ^ (7 - i)) * 2 ^ i).testBit i = b.testBit i := by
      simp only [Nat.testBit_to_div_mod]
      rw [Nat.mul_comm 2 (a * 2 ^ (7 - i)),
          Nat.add_mul_div_right _ _ (Nat.pos_pow_of_pos i (by norm_num)),
          Nat.mul_comm (a * 2 ^ (7 - i)) 2, Nat.add_mul_mod_self_left]
    rw [hrw, hmid, hlow]
    simp
  · have hbf : b.testBit i = false := by
      apply Nat.testBit_eq_false_of_lt
      calc b < 256 := hb
        _ = 2 ^ 8 := by norm_num
        _ ≤ 2 ^ i := Nat.pow_le_pow_right (by norm_num) hi
    have hhigh : (a * 256).testBit i = a.testBit (i - 8) := by
      have hsh : a * 256 = a <<< 8 := by rw [Nat.shiftLeft_eq]
      rw [hsh, Nat.testBit_shiftLeft]
      simp [hi]
    have h2i : (2 : Nat) ^ i = 256 * 2 ^ (i - 8) := by
      have h1 : 8 + (i - 8) = i := by omega
      calc (2 : Nat) ^ i = 2 ^ (8 + (i - 8)) := by rw [h1]
        _ = 2 ^ 8 * 2 ^ (i - 8) := by rw [Nat.pow_add]
        _ = 256 * 2 ^ (i - 8) := by norm_num
    have hmain : (a * 256 + b).testBit i = a.testBit (i - 8) := by
      simp only [Nat.testBit_to_div_mod]
      rw [h2i, ← Nat.div_div_eq_div_mul, Nat.mul_comm a 256,
          Nat.mul_add_div (by norm_num : (0 : Nat) < 256), Nat.div_eq_of_lt hb,
          Nat.add_zero]
    rw [hmain, hhigh, hbf]
    simp

theorem int_zero_lor (x : Int) : Int.lor 0 x = x := by
  cases x with
  | ofNat a =>
    show ((0 ||| a : Nat) : Int) = Int.ofNat a
    simp
  | negSucc a =>
    simp [Int.lor, Nat.ldiff]

theorem pasvPortFold_val (p1 p2 : Nat) (h2 : p2 ≤ 255) :
    Int.lor (Int.lor 0 ((p1 : Int) * 256)) (p2 : Int) = ((p1 * 256 + p2 : Nat) : Int) := by
  rw [int_zero_lor]
  have hcast : ((p1 : Int) * 256) = ((p1 * 256 : Nat) : Int) := by push_cast; ring
  rw [hcast]
  have hlor : Int.lor ((p1 * 256 : Nat) : Int) ((p2 : Nat) : Int) =
      (((p1 * 256) ||| p2 : Nat) : Int) := rfl
  rw [hlor, nat_lor_mul256 p1 p2 (by omega)]

theorem take_drop_middle_segment (pre body suf : Str) (c1 c2 : Char) :
    ((pre ++ c1 :: (body ++ c2 :: suf)).take (pre.length + 1 + body.length)).drop
      (pre.length + 1) = body := by
  have hassoc : pre ++ c1 :: (body ++ c2 :: suf) =
      ((pre ++ [c1] ++ body) ++ (c2 :: suf)) := by simp
  rw [hassoc, List.take_left' (by simp; omega), List.drop_left' (by simp)]

theorem pasvParseAddr_spec (pre suf : Str) (h1 h2 h3 h4 p1 p2 : Nat)
    (hpre : '(' ∉ pre) (hsuf : ')' ∉ suf)
    (b1 : h1 ≤ 255) (b2 : h2 ≤ 255) (b3 : h3 ≤ 255) (b4 : h4 ≤ 255)
    (b5 : p1 ≤ 255) (b6 : p2 ≤ 255) :
    pasvParseAddr (pre ++ '(' :: (pasvBody h1 h2 h3 h4 p1 p2 ++ ')' :: suf)) =
      some (⟨h1, h2, h3, h4⟩, ((p1 * 256 + p2 : Nat) : Int)) := by
  have hcomma : isDigitCh ',' = false := by decide
  have hfirst : indexOfChar '('
      (pre ++ '(' :: (pasvBody h1 h2 h3 h4 p1 p2 ++ ')' :: suf)) =
      some pre.length :=
    indexOfChar_append_first '(' pre _ hpre
  have hmsg : pre ++ '(' :: (pasvBody h1 h2 h3 h4 p1 p2 ++ ')' :: suf) =
      (pre ++ '(' :: pasvBody h1 h2 h3 h4 p1 p2) ++ ')' :: suf := by simp
  have hlast : lastIndexOfChar ')'
      (pre ++ '(' :: (pasvBody h1 h2 h3 h4 p1 p2 ++ ')' :: suf)) =
      some (pre.length + 1 + (pasvBody h1 h2 h3 h4 p1 p2).length) := by
    rw [hmsg, lastIndexOfChar_append_last ')' _ _ hsuf]
    simp
    omega
  have hslice : (((pre ++ '(' :: (pasvBody h1 h2 h3 h4 p1 p2 ++ ')' :: suf)).take
        (pre.length + 1 + (pasvBody h1 h2 h3 h4 p1 p2).length)).drop
        (pre.length + 1)) = pasvBody h1 h2 h3 h4 p1 p2 :=
    take_drop_middle_segment pre _ suf '(' ')'
  have hsplit : splitOnChar ',' (pasvBody h1 h2 h3 h4 p1 p2) =
      [natDigits h1, natDigits h2, natDigits h3, natDigits h4,
       natDigits p1, natDigits p2] := by
    rw [pasvBody]
    rw [splitOnChar_append ',' _ _ (not_mem_natDigits _ _ hcomma),
        splitOnChar_append ',' _ _ (not_mem_natDigits _ _ hcomma),
        splitOnChar_append ',' _ _ (not_mem_natDigits _ _ hcomma),
        splitOnChar_append ',' _ _ (not_mem_natDigits _ _ hcomma),
        splitOnChar_append ',' _ _ (not_mem_natDigits _ _ hcomma),
        splitOnChar_not_mem ',' _ (not_mem_natDigits _ _ hcomma)]
  have hjoin : (natDigits h1 ++ '.' :: natDigits h2 ++ '.' :: natDigits h3 ++
      '.' :: natDigits h4) = (natDigits h1 ++ '.' :: (natDigits h2 ++ '.' ::
      (natDigits h3 ++ '.' :: natDigits h4))) := by simp
  rw [pasvParseAddr, hfirst, hlast]
  dsimp only
  rw [if_neg (by omega), hslice, hsplit]
  dsimp only
  rw [hjoin, parseIPv4_quad h1 h2 h3 h4 b1 b2 b3 b4]
  dsimp only
  rw [goAtoi_natDigits p1, goAtoi_natDigits p2]
  dsimp only
  rw [pasvPortFold_val p1 p2 b6]

/-! ## Claim theorems -/

/-- C2 (code bug): `Delete` (like `Rename`, `Mkdir`, `Rmdir`) acquires a
connection with `getIdleConn` but has no `returnConn` on any path, so a
completed `Delete` leaves the idle queue one connection short of what it
held before the call, violating the claimed leak-freedom: from a pool
with one idle connection, `Delete` leaves zero idle; after six `Delete`
calls on a fresh pool of capacity 5 the next acquire blocks forever.
By contrast an operation shaped like `transferFromOffset`/`size`/
`canResume`/`dataStringList` (acquire with a deferred `returnConn`,
modelled by `pooledOp`) keeps the idle count unchanged. -/
theorem delete_does_not_return_connection :
    (clientDelete { maxConns := 5, freeConnCh := [⟨1, false⟩],
                    loaned := [], allCons := [1], numOpenConns := 1,
                    connIdx := 1 }).freeConnCh.length = 0 ∧
    ({ maxConns := 5, freeConnCh := [⟨1, false⟩], loaned := [],
       allCons := [1], numOpenConns := 1,
       connIdx := 1 } : PoolState).freeConnCh.length = 1 ∧
    (getIdleConn true (clientDelete^[6] (initPool 5))).1 = .blocked ∧
    (pooledOp false (pooledOp false (initPool 5))).freeConnCh.length =
      (pooledOp false (initPool 5)).freeConnCh.length := by
  refine ⟨by decide, by decide, by decide, by decide⟩

/-- C5 (code bug): when EPSV fails and `requestPassive` falls back to
PASV, the `(h1,h2,h3,h4,p1,p2)` payload is parsed out of the stale EPSV
reply text, not the PASV reply's, because `sendCommandExpected` discards
the PASV message and `msg` is never reassigned after the `PASV` label: a
server answering 500 "Unknown command" to EPSV and 227 "Entering Passive
Mode (1,2,3,4,5,6)." to PASV gets a parse error mentioning the EPSV text
instead of the endpoint 1.2.3.4:1286, even though the PASV payload
itself parses fine (second conjunct). -/
theorem requestPassive_parses_stale_epsv_text :
    requestPassive 500 (str "Unknown command") (str "172.16.1.1") 227
        (str "Entering Passive Mode (1,2,3,4,5,6).") =
      .error (.parseFailure (str "Unknown command")) ∧
    pasvParseAddr (str "Entering Passive Mode (1,2,3,4,5,6).") =
      some (⟨1, 2, 3, 4⟩, 1286) := by
  refine ⟨rfl, by decide⟩

/-- C6: PASV parse arithmetic and round-trip.  For every reply text of
the form `pre ++ "(" ++ body ++ ")" ++ suf` with no `(` in `pre`, no `)`
in `suf`, and the body the six decimal fields `h1,h2,h3,h4,p1,p2` in the
octet range of the PASV wire format, the PASV parser of
`requestPassive` yields the address quad `h1.h2.h3.h4` and the port
`p1*256 + p2`; and formatting any IPv4 address and any port at most
65535 into that shape and reparsing returns the same address and port. -/
theorem pasv_parse_roundtrip :
    (∀ (pre suf : Str) (h1 h2 h3 h4 p1 p2 : Nat),
      '(' ∉ pre → ')' ∉ suf →
      h1 ≤ 255 → h2 ≤ 255 → h3 ≤ 255 → h4 ≤ 255 → p1 ≤ 255 → p2 ≤ 255 →
      pasvParseAddr (pre ++ '(' :: (pasvBody h1 h2 h3 h4 p1 p2 ++ ')' :: suf)) =
        some (⟨h1, h2, h3, h4⟩, ((p1 * 256 + p2 : Nat) : Int))) ∧
    (∀ (pre suf : Str) (a b c d port : Nat),
      '(' ∉ pre → ')' ∉ suf →
      a ≤ 255 → b ≤ 255 → c ≤ 255 → d ≤ 255 → port ≤ 65535 →
      pasvParseAddr
          (pre ++ '(' :: (pasvBody a b c d (port / 256) (port % 256) ++ ')' :: suf)) =
        some (⟨a, b, c, d⟩, (port : Int))) := by
  constructor
  · intro pre suf h1 h2 h3 h4 p1 p2 hpre hsuf b1 b2 b3 b4 b5 b6
    exact pasvParseAddr_spec pre suf h1 h2 h3 h4 p1 p2 hpre hsuf b1 b2 b3 b4 b5 b6
  · intro pre suf a b c d port hpre hsuf b1 b2 b3 b4 hport
    rw [pasvParseAddr_spec pre suf a b c d (port / 256) (port % 256) hpre hsuf
        b1 b2 b3 b4 (by omega) (by omega)]
    have hmod : port / 256 * 256 + port % 256 = port := by omega
    rw [hmod]

/-- C7 (code bug): `fetchFeatures` indexes `line[0]` without a length
check, so the multi-line FEAT reply of the spec's own scenario — which
the repository's `TestEmptyLinesFeat` stubs verbatim — panics with an
index-out-of-range on the blank continuation line (`none` models the
panic), instead of producing the `{EPRT, EPSV}` map; with the blank line
removed the same code does produce exactly that map. -/
theorem fetchFeatures_blank_line_crash :
    featuresFromMsg (str "Extensions supported:\n EPRT\n EPSV\n\nEND") = none ∧
    featuresFromMsg (str "Extensions supported:\n EPRT\n EPSV\nEND") =
      some [(str "EPRT", []), (str "EPSV", [])] ∧
    fetchFeatures 211 (str "Extensions supported:\n EPRT\n EPSV\n\nEND") = none := by
  refine ⟨by decide, by decide, by decide⟩

/-- C8 (counterexample): an MLSD entry whose name is `.` but whose `type`
fact is `dir` is included in the `ReadDir` result — the skip check of
`parseMLST` compares the `type` fact, never the name, against `.` and
`..` — contradicting the claim that entries named `.` are omitted. -/
theorem readDir_includes_dot_named_entry :
    (readDirEntries [str "type=dir;modify=20150216084148;perm=r; ."]).map
      (fun l => l.map FtpFile.name) = .ok [str "."] := rfl

/-- C9: password redaction noninterference in `sendCommand`.  Any
formatted command beginning with `PASS` is logged as the fixed text
`PASS ******`, and the full `sendCommand` debug output — both the
"sending command" line and the follow-up line — is one and the same
function of everything except the password: two runs that differ only
in the password produce identical logs. -/
theorem pass_redaction_noninterference :
    (∀ pw : Str, redactLogName (str "PASS " ++ pw) = str "PASS ******") ∧
    (∀ (pw1 pw2 elapsed1 elapsed2 : Str) (idx : Nat) (writeErr : Option Str)
        (reply : Except Str (Int × Str)),
      sendCommandLog elapsed1 elapsed2 idx (str "PASS " ++ pw1) writeErr reply =
        sendCommandLog elapsed1 elapsed2 idx (str "PASS " ++ pw2) writeErr reply) := by
  have hred : ∀ pw : Str, redactLogName (str "PASS " ++ pw) = str "PASS ******" := by
    intro pw
    have h1 : str "PASS " = str "PASS" ++ [' '] := by decide
    have hsw : startsWith (str "PASS " ++ pw) (str "PASS") = true := by
      rw [h1, List.append_assoc]
      exact startsWith_self_append (str "PASS") _
    simp [redactLogName, hsw]
  refine ⟨hred, ?_⟩
  intro pw1 pw2 t1 t2 idx we reply
  simp only [sendCommandLog, hred]

/-- C10 (counterexample): `NameList` returns `filepath.Base` of each NLST
line, but `filepath.Base` of a line consisting of separators is `/`
itself, so a returned name can contain a path separator. -/
theorem nameList_returns_separator :
    nameListNames [str "/"] = [str "/"] ∧ '/' ∈ str "/" := by
  refine ⟨by decide, by decide⟩

/-- C3: post-transfer size verification.  When the retry loop of
`Retrieve` finishes with no error and the `SIZE` result is not the `-1`
sentinel, the call returns `ok` exactly when the transferred total equals
the reported size (first conjunct); in particular a `Retrieve` that
returns no error has transferred exactly the reported size (second
conjunct); and the same verification holds for `Store` against the size
reported after the loop (third conjunct). -/
theorem size_verification :
    (∀ (size : Int) (can : Bool) (attempts : List Attempt) (total : Int),
      (retrieveLoop attempts 0 can).1 = .success total → size ≠ -1 →
      (clientRetrieve (.ok size) can attempts = .ok ↔ total = size)) ∧
    (∀ (size : Int) (can : Bool) (attempts : List Attempt),
      size ≠ -1 → clientRetrieve (.ok size) can attempts = .ok →
      (retrieveLoop attempts 0 can).1 = .success size) ∧
    (∀ (attempts : List Attempt) (sizes : List (Except Str Int)) (seeks : List Bool)
        (can : Bool) (size total : Int),
      storeLoop attempts sizes seeks 0 can = .success total → size ≠ -1 →
      (clientStore attempts sizes seeks can (.ok size) = .ok ↔ total = size)) := by
  refine ⟨?_, ?_, ?_⟩
  · intro size can attempts total hloop hsize
    simp only [clientRetrieve, hloop]
    constructor
    · intro hok
      by_contra hne
      rw [if_pos ⟨hsize, hne⟩] at hok
      exact OpOutcome.noConfusion hok
    · intro heq
      rw [if_neg (fun h => h.2 heq)]
  · intro size can attempts hsize hok
    cases hloop : (retrieveLoop attempts 0 can).1 with
    | success total =>
      simp only [clientRetrieve, hloop] at hok
      by_cases hne : total = size
      · rw [hne]
      · rw [if_pos ⟨hsize, hne⟩] at hok
        exact OpOutcome.noConfusion hok
    | failure e =>
      simp only [clientRetrieve, hloop] at hok
      exact OpOutcome.noConfusion hok
    | outOfAttempts =>
      simp only [clientRetrieve, hloop] at hok
      exact OpOutcome.noConfusion hok
  · intro attempts sizes seeks can size total hloop hsize
    simp only [clientStore, hloop]
    constructor
    · intro hok
      by_contra hne
      rw [if_pos ⟨hsize, fun he => hne he.symm⟩] at hok
      exact OpOutcome.noConfusion hok
    · intro heq
      rw [if_neg (fun h => h.2 heq.symm)]

/-- C4: download resumption policy of `Retrieve`.  (1) The offset passed
to the j-th `transferFromOffset` call is the accumulated byte count of
the previous attempts; (2) the loop exits with success on the first
error-free attempt; (3) an attempt returning zero bytes with an error
surfaces that error unchanged; (4) a failed attempt with strictly
positive bytes is retried when the `canResume` snapshot is true and
otherwise turns into a wrapped error; (5) `canResume` is true exactly
when the FEAT map stores `STREAM` under `REST`. -/
theorem retrieve_resumption_policy :
    (∀ (attempts : List Attempt) (sofar : Int) (can : Bool) (j : Nat),
      j < (retrieveLoop attempts sofar can).2.length →
      (retrieveLoop attempts sofar can).2.get? j =
        some (sofar + attemptBytes (attempts.take j))) ∧
    (∀ (a : Attempt) (rest : List Attempt) (sofar : Int) (can : Bool),
      a.err = none →
      retrieveLoop (a :: rest) sofar can = (.success (sofar + a.n), [sofar])) ∧
    (∀ (a : Attempt) (rest : List Attempt) (sofar : Int) (can : Bool) (e : Str),
      a.err = some e → a.n = 0 →
      retrieveLoop (a :: rest) sofar can = (.failure e, [sofar])) ∧
    (∀ (a : Attempt) (rest : List Attempt) (sofar : Int) (e : Str),
      a.err = some e → 0 < a.n →
      retrieveLoop (a :: rest) sofar true =
        ((retrieveLoop rest (sofar + a.n) true).1,
         sofar :: (retrieveLoop rest (sofar + a.n) true).2) ∧
      retrieveLoop (a :: rest) sofar false =
        (.failure (e ++ str " (can't resume)"), [sofar])) ∧
    (∀ features : List (Str × Str),
      canResume features = true ↔
        (features.find? (fun p => decide (p.1 = str "REST"))).map Prod.snd =
          some (str "STREAM")) := by
  refine ⟨?_, ?_, ?_, ?_, ?_⟩
  · intro attempts
    induction attempts with
    | nil =>
      intro sofar can j hj
      simp [retrieveLoop] at hj
    | cons a rest ih =>
      intro sofar can j hj
      simp only [retrieveLoop] at hj ⊢
      cases herr : a.err with
      | none =>
        simp only [herr] at hj ⊢
        have hj0 : j = 0 := by simpa using hj
        subst hj0
        simp [attemptBytes]
      | some e =>
        simp only [herr] at hj ⊢
        by_cases hn : a.n = 0
        · simp only [hn, if_pos rfl] at hj ⊢
          have hj0 : j = 0 := by simpa using hj
          subst hj0
          simp [attemptBytes]
        · simp only [if_neg hn] at hj ⊢
          by_cases hcan : can = false
          · simp only [hcan, if_pos rfl] at hj ⊢
            have hj0 : j = 0 := by simpa using hj
            subst hj0
            simp [attemptBytes]
          · simp only [if_neg hcan] at hj ⊢
            cases j with
            | zero => simp [attemptBytes]
            | succ j2 =>
              simp only [List.length_cons, Nat.add_lt_add_iff_right] at hj
              simp only [List.get?_cons_succ]
              rw [ih (sofar + a.n) can j2 hj]
              congr 1
              simp only [List.take_succ_cons, attemptBytes, List.map_cons,
                List.sum_cons]
              ring
  · intro a rest sofar can herr
    simp [retrieveLoop, herr]
  · intro a rest sofar can e herr hn
    simp [retrieveLoop, herr, hn]
  · intro a rest sofar e herr hn
    have hn0 : a.n ≠ 0 := by omega
    constructor
    · simp [retrieveLoop, herr, hn0]
    · simp [retrieveLoop, herr, hn0]
  · intro features
    rw [canResume, hasFeatureWithArg]
    cases hf : features.find? (fun p => decide (p.1 = str "REST")) with
    | none => simp
    | some p =>
      simp only [Option.map_some]
      have hup : toUpperStr (str "STREAM") = str "STREAM" := by decide
      rw [hup]
      constructor
      · intro h
        rw [decide_eq_true_eq] at h
        rw [h]
        simp
      · intro h
        injection h with h2
        rw [h2]
        simp

/-- Helper for C10: the suffix after the last slash contains no slash. -/
theorem not_slash_mem_afterLastSlash (l : Str) : '/' ∉ afterLastSlash l := by
  intro h
  rw [afterLastSlash, List.mem_reverse] at h
  have := List.mem_takeWhile_imp h
  simp at this

/-- Helper for C10: `filepath.Base` output is either the separator itself
or separator-free. -/
theorem filepathBase_no_slash (p : Str) :
    filepathBase p = ['/'] ∨ '/' ∉ filepathBase p := by
  rw [filepathBase]
  split
  · right
    intro h
    simp at h
  · dsimp only
    split
    · left
      rfl
    · right
      exact not_slash_mem_afterLastSlash _

/-- C10 (amended): every string `NameList` returns is `filepath.Base` of
the corresponding NLST data line, and such a name never contains a path
separator except when the line consists solely of separators, in which
case the name is exactly `/`. -/
theorem nameList_base_names :
    ∀ lines : List Str,
      nameListNames lines = lines.map filepathBase ∧
      ∀ name ∈ nameListNames lines, name = ['/'] ∨ '/' ∉ name := by
  intro lines
  refine ⟨rfl, ?_⟩
  intro name hmem
  rw [nameListNames, List.mem_map] at hmem
  obtain ⟨l, _, hl⟩ := hmem
  rw [← hl]
  exact filepathBase_no_slash l

/-- C8 (amended): `ReadDir`'s entry parser skips an entry — returns
`nil, nil`, modelled `.ok none` — exactly when the entry's `type` fact is
`cdir`, `pdir`, `.` or `..`; the entry's name is never consulted by the
skip check. -/
theorem readDir_skip_is_by_type_fact :
    ∀ (entry : Str) (r : Option FtpFile),
      parseMLST entry true = .ok r →
      (r = none ↔ (mlstTypeFact entry = str "cdir" ∨ mlstTypeFact entry = str "pdir" ∨
        mlstTypeFact entry = str "." ∨ mlstTypeFact entry = str "..")) := by
  intro entry r h
  rw [parseMLST] at h
  rw [mlstTypeFact]
  split at h
  · rename_i p0 p1 heqsplit
    split at h
    · exact absurd h (by simp)
    · rename_i facts heqfacts
      dsimp only at h ⊢
      by_cases htyp0 : factGet facts (str "type") = []
      · rw [if_pos htyp0] at h
        exact absurd h (by simp)
      · rw [if_neg htyp0] at h
        by_cases hskip : factGet facts (str "type") = str "cdir" ∨
            factGet facts (str "type") = str "pdir" ∨
            factGet facts (str "type") = str "." ∨
            factGet facts (str "type") = str ".."
        · rw [if_pos ⟨rfl, hskip⟩] at h
          have hr : r = none := by
            injection h with h2
            exact h2.symm
          simp only [heqfacts, hr]
          simpa using hskip
        · rw [if_neg (fun hand => hskip hand.2)] at h
          have hr : ∃ f, r = some f := by
            split at h
            · exact absurd h (by simp)
            · split at h
              · exact absurd h (by simp)
              · split at h
                · exact absurd h (by simp)
                · split at h
                  · exact absurd h (by simp)
                  · rename_i f heqf
                    injection h with h2
                    exact ⟨_, h2.symm⟩
          obtain ⟨f, hf⟩ := hr
          simp only [heqfacts, hf]
          simp only [Option.some_ne_none, false_iff]
          tauto
  · rename_i hne
    exact absurd h (by simp)

/-- Helper for C1: the invariant after the `getIdleConn` body, given the
pre-state split into the channel contents `q` and the rest of the
state. -/
theorem acquireDrain_inv (ok : Bool) :
    ∀ (q : List PoolConn) (s : PoolState),
      s.numOpenConns = ((q.length + s.loaned.length : Nat) : Int) →
      ((q ++ s.loaned).map PoolConn.idx).Nodup →
      q.length + s.loaned.length ≤ s.maxConns →
      (∀ c ∈ q ++ s.loaned, c.idx ≤ s.connIdx) →
      poolInv (acquireDrain ok q s).2 ∧
        (acquireDrain ok q s).2.maxConns = s.maxConns := by
  intro q
  induction q with
  | nil =>
    intro s h1 h2 h3 h4
    simp only [List.length_nil, Nat.zero_add] at h1 h3
    simp only [List.nil_append] at h2 h4
    rw [acquireDrain]
    by_cases hcap : s.numOpenConns < (s.maxConns : Int)
    · rw [if_pos hcap]
      by_cases hok : ok = true
      · rw [if_pos hok]
        refine ⟨?_, rfl⟩
        rw [poolInv]
        simp only [liveConns]
        refine ⟨?_, ?_, ?_, ?_⟩
        · simp only [List.nil_append, List.length_cons]
          omega
        · simp only [List.nil_append, List.map_cons, List.nodup_cons]
          refine ⟨?_, h2⟩
          intro hmem
          rw [List.mem_map] at hmem
          obtain ⟨c, hc, hidx⟩ := hmem
          have := h4 c hc
          omega
        · simp only [List.nil_append, List.length_cons]
          omega
        · intro c hc
          simp only [List.nil_append, List.mem_cons] at hc
          rcases hc with hc | hc
          · rw [hc]
          · have := h4 c hc
            omega
      · rw [if_neg hok]
        refine ⟨?_, rfl⟩
        rw [poolInv]
        simp only [liveConns]
        refine ⟨?_, ?_, ?_, ?_⟩
        · simp only [List.nil_append]
          omega
        · simpa using h2
        · simpa using h3
        · intro c hc
          have := h4 c (by simpa using hc)
          omega
    · rw [if_neg hcap]
      refine ⟨?_, rfl⟩
      rw [poolInv]
      simp only [liveConns]
      refine ⟨?_, ?_, ?_, ?_⟩
      · simp only [List.nil_append]
        omega
      · simpa using h2
      · simpa using h3
      · intro c hc
        exact h4 c (by simpa using hc)
  | cons pconn rest ih =>
    intro s h1 h2 h3 h4
    rw [acquireDrain]
    by_cases hb : pconn.broken = true
    · rw [if_pos hb]
      refine ih _ ?_ ?_ ?_ ?_
      · dsimp only
        simp only [List.length_cons] at h1
        omega
      · simp only [List.cons_append, List.map_cons, List.nodup_cons] at h2
        exact h2.2
      · dsimp only
        simp only [List.length_cons] at h3
        omega
      · intro c hc
        exact h4 c (by simp only [List.cons_append, List.mem_cons]; right; exact hc)
    · rw [if_neg hb]
      refine ⟨?_, rfl⟩
      have hperm : List.Perm
          (liveConns { s with freeConnCh := rest, loaned := pconn :: s.loaned })
          ((pconn :: rest) ++ s.loaned) := by
        simp only [liveConns]
        simp only [List.cons_append]
        exact List.perm_middle
      rw [poolInv]
      refine ⟨?_, ?_, ?_, ?_⟩
      · have hlen := hperm.length_eq
        simp only [List.cons_append, List.length_cons] at hlen h1
        dsimp only at hlen ⊢
        rw [hlen]
        simp only [List.length_append, List.length_cons] at h1 ⊢
        omega
      · exact ((hperm.map PoolConn.idx).nodup_iff).mpr h2
      · have hlen := hperm.length_eq
        simp only [List.cons_append, List.length_cons] at hlen h3
        dsimp only at hlen ⊢
        rw [hlen]
        simp only [List.length_append, List.length_cons] at h3 ⊢
        omega
      · intro c hc
        have := h4 c (hperm.mem_iff.mp hc)
        dsimp only
        omega

/-- Helper for C1: `getIdleConn` never hands out a connection whose
broken flag is set. -/
theorem acquireDrain_got_not_broken (ok : Bool) :
    ∀ (q : List PoolConn) (s : PoolState) (c : PoolConn) (s2 : PoolState),
      acquireDrain ok q s = (.got c, s2) → c.broken = false := by
  intro q
  induction q with
  | nil =>
    intro s c s2 h
    rw [acquireDrain] at h
    by_cases hcap : s.numOpenConns < (s.maxConns : Int)
    · rw [if_pos hcap] at h
      by_cases hok : ok = true
      · rw [if_pos hok] at h
        have h2 := (Prod.mk.injEq _ _ _ _).mp h
        have hc := AcquireResult.got.inj h2.1
        rw [← hc]
      · rw [if_neg hok] at h
        have h2 := (Prod.mk.injEq _ _ _ _).mp h
        exact absurd h2.1 (by simp)
    · rw [if_neg hcap] at h
      have h2 := (Prod.mk.injEq _ _ _ _).mp h
      exact absurd h2.1 (by simp)
  | cons pconn rest ih =>
    intro s c s2 h
    rw [acquireDrain] at h
    by_cases hb : pconn.broken = true
    · rw [if_pos hb] at h
      exact ih _ c s2 h
    · rw [if_neg hb] at h
      have h2 := (Prod.mk.injEq _ _ _ _).mp h
      have hc := AcquireResult.got.inj h2.1
      rw [← hc]
      simpa using hb

/-- Helper for C1: specification of `takeByIdx` when it finds the loaned
connection being returned. -/
theorem takeByIdx_some :
    ∀ (l : List PoolConn) (i : Nat) (c : PoolConn),
      (takeByIdx l i).1 = some c →
      ∃ l1 l2, l = l1 ++ c :: l2 ∧ (takeByIdx l i).2 = l1 ++ l2 ∧ c.idx = i := by
  intro l
  induction l with
  | nil =>
    intro i c h
    simp [takeByIdx] at h
  | cons x rest ih =>
    intro i c h
    rw [takeByIdx] at h ⊢
    by_cases hx : x.idx = i
    · rw [if_pos hx] at h ⊢
      simp only at h
      injection h with h2
      refine ⟨[], rest, ?_, ?_, ?_⟩
      · rw [h2]
        rfl
      · rfl
      · rw [← h2]
        exact hx
    · rw [if_neg hx] at h ⊢
      simp only at h
      obtain ⟨l1, l2, hsplit, hrest, hidx⟩ := ih i c h
      refine ⟨x :: l1, l2, ?_, ?_, hidx⟩
      · rw [List.cons_append, ← hsplit]
      · simp only
        rw [hrest]
        rfl

/-- Helper for C1: the invariant is preserved by `returnConn`. -/
theorem returnConn_inv (i : Nat) (b : Bool) (s : PoolState) (h : poolInv s) :
    poolInv (returnConn i b s) ∧ (returnConn i b s).maxConns = s.maxConns := by
  obtain ⟨h1, h2, h3, h4⟩ := h
  rw [returnConn]
  cases htake : takeByIdx s.loaned i with
  | mk o rest =>
    cases o with
    | none =>
      exact ⟨⟨h1, h2, h3, h4⟩, rfl⟩
    | some c =>
      obtain ⟨l1, l2, hsplit, hrest, hidx⟩ := takeByIdx_some s.loaned i c
        (by rw [htake])
      have hrest2 : rest = l1 ++ l2 := by
        rw [htake] at hrest
        exact hrest
      have hperm : List.Perm
          ((liveConns { s with loaned := rest, freeConnCh := s.freeConnCh ++ [{ idx := c.idx, broken := c.broken || b }] }).map PoolConn.idx)
          ((liveConns s).map PoolConn.idx) := by
        simp only [liveConns, hrest2, hsplit, List.map_append, List.map_cons]
        rw [List.append_assoc]
        refine List.Perm.append_left _ ?_
        simp only [List.singleton_append, List.cons_append]
        have hmid : List.Perm
            ((l1.map PoolConn.idx) ++ c.idx :: (l2.map PoolConn.idx))
            (c.idx :: ((l1.map PoolConn.idx) ++ l2.map PoolConn.idx)) :=
          List.perm_middle
        exact hmid.symm
      have hcmem : c ∈ liveConns s := by
        rw [liveConns, hsplit]
        exact List.mem_append_right _ (List.mem_append_right _ (List.mem_cons_self _ _))
      have hlen : (liveConns { s with loaned := rest, freeConnCh := s.freeConnCh ++ [{ idx := c.idx, broken := c.broken || b }] }).length = (liveConns s).length := by
        have hl := hperm.length_eq
        simpa using hl
      refine ⟨⟨?_, ?_, ?_, ?_⟩, rfl⟩
      · rw [hlen]
        exact h1
      · exact (hperm.nodup_iff).mpr h2
      · rw [hlen]
        exact h3
      · intro c2 hc2
        have hsub : c2.idx ∈ (liveConns s).map PoolConn.idx :=
          hperm.subset (List.mem_map_of_mem PoolConn.idx hc2)
        rw [List.mem_map] at hsub
        obtain ⟨c3, hc3, hidx3⟩ := hsub
        rw [← hidx3]
        exact h4 c3 hc3

/-- Helper for C1: the invariant holds after any operation sequence on a
fresh pool. -/
theorem runPool_inv (maxConns : Nat) (ops : List PoolOp) :
    poolInv (runPool maxConns ops) ∧ (runPool maxConns ops).maxConns = maxConns := by
  rw [runPool]
  have hstep : ∀ (ops2 : List PoolOp) (s : PoolState),
      poolInv s → s.maxConns = maxConns →
      poolInv (ops2.foldl poolStep s) ∧ (ops2.foldl poolStep s).maxConns = maxConns := by
    intro ops2
    induction ops2 with
    | nil =>
      intro s hs hm
      exact ⟨hs, hm⟩
    | cons op rest ih =>
      intro s hs hm
      rw [List.foldl_cons]
      cases op with
      | acquire ok =>
        obtain ⟨hs1, hs2, hs3, hs4⟩ := hs
        have hdrain := acquireDrain_inv ok s.freeConnCh s
          (by simpa [liveConns] using hs1)
          (by simpa [liveConns] using hs2)
          (by simpa [liveConns] using hs3)
          (by intro c hc; exact hs4 c (by simpa [liveConns] using hc))
        refine ih _ hdrain.1 ?_
        rw [poolStep, getIdleConn]
        rw [hdrain.2, hm]
      | release i2 b2 =>
        have hret := returnConn_inv i2 b2 s hs
        refine ih _ hret.1 ?_
        rw [poolStep]
        rw [hret.2, hm]
  refine hstep ops (initPool maxConns) ?_ rfl
  refine ⟨rfl, ?_, ?_, ?_⟩
  · simp [initPool, liveConns]
  · simp [initPool, liveConns]
  · intro c hc
    simp [initPool, liveConns] at hc

/-- C1: pool accounting invariant.  After any finite sequence of pool
operations on a fresh pool, `numOpenConns` equals the number of live
connections; no live connection is both in the idle queue and loaned
(nor loaned to two callers): the live index list has no duplicates; the
counter never exceeds `connectionsPerHost` times the number of endpoints
(the code's cap is the single `MaxConnections` bound, which is at most
`maxConns * endpoints` whenever at least one endpoint exists); and an
acquirer that dequeues a connection whose broken flag is set closes it
(removes it from `allCons`) and decrements `numOpenConns` instead of
returning it — `getIdleConn` can only hand out connections whose broken
flag is clear. -/
theorem pool_accounting_invariant :
    ∀ (maxConns endpoints : Nat) (ops : List PoolOp),
      1 ≤ endpoints →
      (runPool maxConns ops).numOpenConns =
        ((liveConns (runPool maxConns ops)).length : Int) ∧
      ((liveConns (runPool maxConns ops)).map PoolConn.idx).Nodup ∧
      (runPool maxConns ops).numOpenConns ≤ ((maxConns * endpoints : Nat) : Int) ∧
      (∀ (ok : Bool) (pconn : PoolConn) (rest : List PoolConn) (s : PoolState),
        pconn.broken = true →
        acquireDrain ok (pconn :: rest) s =
          acquireDrain ok rest
            { s with numOpenConns := s.numOpenConns - 1,
                     allCons := s.allCons.erase pconn.idx }) ∧
      (∀ (ok : Bool) (q : List PoolConn) (s : PoolState) (c : PoolConn)
          (s2 : PoolState),
        acquireDrain ok q s = (.got c, s2) → c.broken = false) := by
  intro maxConns endpoints ops hE
  obtain ⟨⟨h1, h2, h3, h4⟩, hmax⟩ := runPool_inv maxConns ops
  refine ⟨h1, h2, ?_, ?_, acquireDrain_got_not_broken⟩
  · rw [h1]
    have hcap : (liveConns (runPool maxConns ops)).length ≤ maxConns * endpoints := by
      calc (liveConns (runPool maxConns ops)).length
          ≤ (runPool maxConns ops).maxConns := h3
        _ = maxConns := hmax
        _ ≤ maxConns * endpoints := Nat.le_mul_of_pos_right _ (by omega)
    exact_mod_cast hcap
  · intro ok pconn rest s hb
    rw [acquireDrain, if_pos hb]

/-- Witness for C1 at a concrete input: capacity 2, one endpoint, and the
operation sequence acquire, acquire, broken release, acquire. -/
theorem pool_accounting_invariant_witness :
    1 ≤ 1 ∧
    (runPool 2 [.acquire true, .acquire true, .release 1 true,
        .acquire true]).numOpenConns =
      ((liveConns (runPool 2 [.acquire true, .acquire true, .release 1 true,
        .acquire true])).length : Int) ∧
    ((liveConns (runPool 2 [.acquire true, .acquire true, .release 1 true,
        .acquire true])).map PoolConn.idx).Nodup ∧
    (runPool 2 [.acquire true, .acquire true, .release 1 true,
        .acquire true]).numOpenConns ≤ ((2 * 1 : Nat) : Int) :=
  ⟨by decide,
   (pool_accounting_invariant 2 1 [.acquire true, .acquire true, .release 1 true,
      .acquire true] (by decide)).1,
   (pool_accounting_invariant 2 1 [.acquire true, .acquire true, .release 1 true,
      .acquire true] (by decide)).2.1,
   (pool_accounting_invariant 2 1 [.acquire true, .acquire true, .release 1 true,
      .acquire true] (by decide)).2.2.1⟩

/-- Witness for C3 at a concrete input: two attempts of 2 bytes, the
first failing, against a reported size of 4. -/
theorem size_verification_witness :
    (retrieveLoop [⟨2, some (str "io")⟩, ⟨2, none⟩] 0 true).1 = .success 4 ∧
    (4 : Int) ≠ -1 ∧
    (clientRetrieve (.ok 4) true [⟨2, some (str "io")⟩, ⟨2, none⟩] = .ok ↔
      (4 : Int) = 4) :=
  ⟨rfl, by decide,
   size_verification.1 4 true [⟨2, some (str "io")⟩, ⟨2, none⟩] 4 rfl (by decide)⟩

/-- Witness for C4 at concrete inputs: a zero-byte failure surfaces its
error unchanged, and a two-byte failure without `REST STREAM` gets the
wrapped error. -/
theorem retrieve_resumption_policy_witness :
    retrieveLoop [⟨0, some (str "boom")⟩] 0 true = (.failure (str "boom"), [0]) ∧
    retrieveLoop [⟨2, some (str "boom")⟩] 0 false =
      (.failure (str "boom" ++ str " (can't resume)"), [0]) :=
  ⟨retrieve_resumption_policy.2.2.1 ⟨0, some (str "boom")⟩ [] 0 true
      (str "boom") rfl rfl,
   (retrieve_resumption_policy.2.2.2.1 ⟨2, some (str "boom")⟩ [] 0
      (str "boom") rfl (by decide)).2⟩

/-- Witness for C6 at a concrete input: the text
`Entering Passive Mode (192,168,1,2,5,6).`. -/
theorem pasv_parse_roundtrip_witness :
    ('(' ∉ str "Entering Passive Mode ") ∧ (')' ∉ str ".") ∧
    pasvParseAddr (str "Entering Passive Mode " ++ '(' ::
        (pasvBody 192 168 1 2 5 6 ++ ')' :: str ".")) =
      some (⟨192, 168, 1, 2⟩, ((5 * 256 + 6 : Nat) : Int)) :=
  ⟨by decide, by decide,
   pasv_parse_roundtrip.1 (str "Entering Passive Mode ") (str ".") 192 168 1 2 5 6
     (by decide) (by decide) (by decide) (by decide) (by decide) (by decide)
     (by decide) (by decide)⟩

/-- Witness for C8 at a concrete input: an entry with `type=cdir` is
skipped, and the theorem places its type fact in the skip set. -/
theorem readDir_skip_by_type_fact_witness :
    parseMLST (str "type=cdir;modify=20150216084148;perm=r; x") true = .ok none ∧
    (mlstTypeFact (str "type=cdir;modify=20150216084148;perm=r; x") = str "cdir" ∨
     mlstTypeFact (str "type=cdir;modify=20150216084148;perm=r; x") = str "pdir" ∨
     mlstTypeFact (str "type=cdir;modify=20150216084148;perm=r; x") = str "." ∨
     mlstTypeFact (str "type=cdir;modify=20150216084148;perm=r; x") = str "..") :=
  ⟨rfl,
   (readDir_skip_is_by_type_fact (str "type=cdir;modify=20150216084148;perm=r; x")
      none rfl).mp rfl⟩

end Goftp
